import Mathlib

/-!
Verification development for the Datahub repository.

Shallow embedding of the core components described in the specification:
the DOC chunker (`src/applications/services/chunking/doc_chunker.py`),
the chunker factory (`src/applications/services/chunking/factory.py`),
the AiHub embedding client (`src/infrastructure/clients/aihub.py`),
the document service chunk-saving routine
(`src/applications/services/document.py`), the document controller ingest
endpoint (`src/applications/controllers/document.py`), and the search
service SQL construction and hybrid-search semantics
(`src/applications/services/search.py`).

Python strings are modelled as `List Char`, Python integers as `Int`
(so that the negative values that Python index arithmetic can produce
are representable), and Python exceptions as an explicit `PyResult`
sum type.  External collaborators (database repositories, the HTTP
embedding endpoint) are modelled as explicit environments passed in.
-/

namespace Datahub

/-! ## Python string primitives

Faithful models of the CPython `str` operations used by the code:
slice-index normalisation, `str.__getitem__` slicing, `str.rfind` and
`str.strip`. -/

/-- CPython slice-index normalisation: a negative index counts from the
end of the string (clamped below at 0), a nonnegative index is clamped
above at the length. Used by both slicing and `rfind`. -/
def pyNorm (n : Int) (len : Nat) : Nat :=
  if n < 0 then (n + len).toNat else min n.toNat len

/-- CPython slice `text[a:b]`. -/
def pySlice (text : List Char) (a b : Int) : List Char :=
  (text.take (pyNorm b text.length)).drop (pyNorm a text.length)

/-- `pat` occurs in `text` starting at absolute position `i`
(the whole pattern fits inside the string). -/
def patAt (text pat : List Char) (i : Nat) : Bool :=
  pat == (text.drop i).take pat.length

/-- Greatest `i < b` with `cond i`, scanning downward from `b`
(the backward scan performed by CPython `rfind`). -/
def lastHit (cond : Nat → Bool) : Nat → Option Nat
  | 0 => none
  | b + 1 => if cond b then some b else lastHit cond b

/-- CPython `text.rfind(pat, a, b)`: the greatest `i` with
`a' ≤ i`, `i + pat.length ≤ b'` (for slice-normalised bounds `a'`, `b'`)
such that `pat` occurs at `i`; `-1` when there is none. -/
def pyRfind (text pat : List Char) (a b : Int) : Int :=
  match lastHit (fun i => decide (pyNorm a text.length ≤ i) &&
      decide (i + pat.length ≤ pyNorm b text.length) && patAt text pat i)
      (pyNorm b text.length) with
  | some m => (m : Int)
  | none => -1

/-- CPython `text.strip()`: remove leading and trailing whitespace. -/
def pyStrip (text : List Char) : List Char :=
  ((text.dropWhile Char.isWhitespace).reverse.dropWhile Char.isWhitespace).reverse

/-- Insert `x` before the first element `y` with `le x y` (keeps a
`le`-sorted list sorted; an element is placed before the elements equal
to it, so the enclosing sort is stable). -/
def stableInsert {α : Type} (le : α → α → Bool) (x : α) : List α → List α
  | [] => [x]
  | y :: ys => if le x y then x :: y :: ys else y :: stableInsert le x ys

/-- Stable insertion sort: the model of CPython `list.sort(key=...)`
(Timsort is stable; equal-key elements keep their relative order). -/
def stableSort {α : Type} (le : α → α → Bool) : List α → List α
  | [] => []
  | x :: xs => stableInsert le x (stableSort le xs)

/-! ## DocChunker.chunk_text
(`src/applications/services/chunking/doc_chunker.py`, lines 65-126)

The chunk records carry the `content`, `chunk_index` and the
`start_char` / `end_char` metadata fields produced by the code (the
`length` metadata field is `content.length` and is omitted).  The
`while start < len(text)` loop is given explicit fuel because — as
proved below — it does not terminate on all inputs; `none` means the
fuel ran out. -/

structure ChunkResult where
  content : List Char
  chunk_index : Nat
  start_char : Int
  end_char : Int
deriving DecidableEq, Repr

/-- The cut position `end` computed by one loop iteration of
`chunk_text` from the window start (lines 82-100 of the source):
`end = start + chunk_size`; when this does not reach end-of-text, the
last sentence terminator (`'. '`, `'! '`, `'? '`) strictly past `start`
wins (cut after the terminator), else the last `' '` strictly past
`start` wins (cut at the space), else hard cut. -/
def cutEnd (chunk_size : Nat) (text : List Char) (start : Int) : Int :=
  let e : Int := start + chunk_size
  if e < (text.length : Int) then
    let sentence_end :=
      max (max (pyRfind text ['.', ' '] start e) (pyRfind text ['!', ' '] start e))
        (pyRfind text ['?', ' '] start e)
    if start < sentence_end then sentence_end + 1
    else
      let space_pos := pyRfind text [' '] start e
      if start < space_pos then space_pos else e
  else e

/-- The next window start computed by one loop iteration (lines 118-123
of the source): `start = end - chunk_overlap` if more text remains else
`end`, then the "ensure we make progress" guard
`if start <= end - chunk_size: start = end`. -/
def nextStart (chunk_size chunk_overlap : Nat) (text : List Char) (start : Int) : Int :=
  let e := cutEnd chunk_size text start
  let s1 : Int := if e < (text.length : Int) then e - chunk_overlap else e
  if s1 ≤ e - chunk_size then e else s1

/-- The `while start < len(text)` loop of `chunk_text`, with fuel.
Each iteration computes the cut, appends the stripped slice as a chunk
when it is non-empty (incrementing the running index), and advances
`start`. -/
def chunkLoop (chunk_size chunk_overlap : Nat) (text : List Char) :
    Nat → Int → Nat → List ChunkResult → Option (List ChunkResult)
  | 0, _, _, _ => none
  | fuel + 1, start, chunk_index, chunks =>
    if start < (text.length : Int) then
      let e := cutEnd chunk_size text start
      let chunk_content := pyStrip (pySlice text start e)
      let chunks1 :=
        if chunk_content ≠ [] then chunks ++ [⟨chunk_content, chunk_index, start, e⟩] else chunks
      let index1 := if chunk_content ≠ [] then chunk_index + 1 else chunk_index
      chunkLoop chunk_size chunk_overlap text fuel (nextStart chunk_size chunk_overlap text start)
        index1 chunks1
    else some chunks

/-- `DocChunker.chunk_text`: empty text short-circuits to no chunks,
otherwise the loop runs from `start = 0`. -/
def chunk_text (chunk_size chunk_overlap fuel : Nat) (text : List Char) :
    Option (List ChunkResult) :=
  if text = [] then some [] else chunkLoop chunk_size chunk_overlap text fuel 0 0 []

/-- The concrete example text used by the specification. -/
def catText : List Char := "The cat sat. The dog ran far away today.".toList

/-- A sentence terminator (`.`, `!` or `?`) immediately followed by a
space occurs at position `i`. -/
def sentAt (text : List Char) (i : Nat) : Prop :=
  patAt text ['.', ' '] i = true ∨ patAt text ['!', ' '] i = true ∨
    patAt text ['?', ' '] i = true

instance (text : List Char) (i : Nat) : Decidable (sentAt text i) := by
  unfold sentAt
  infer_instance

/-- A plain space occurs at position `i`. -/
def spaceAt (text : List Char) (i : Nat) : Prop := patAt text [' '] i = true

instance (text : List Char) (i : Nat) : Decidable (spaceAt text i) := by
  unfold spaceAt
  infer_instance

/-! ## Python exceptions -/

/-- Result of a Python call: a normal return value or a raised exception
(identified by its message). -/
inductive PyResult (α : Type) where
  | ok (val : α)
  | exn (msg : String)
deriving DecidableEq, Repr

/-! ## ChunkerFactory
(`src/applications/services/chunking/factory.py`) -/

/-- The keys of `chunker_map` in `ChunkerFactory.get_chunker`. -/
def chunker_map_types : List String := ["word", "doc", "docx"]

/-- CPython `str.lower()` (character-wise lowering). -/
def pyLower (s : String) : String := String.mk (s.data.map Char.toLower)

/-- Whether `ChunkerFactory.get_chunker(file_type)` returns a chunker
(the map is keyed by the lower-cased type tag; unknown tags give
`None`). -/
def get_chunker_available (file_type : String) : Bool :=
  chunker_map_types.contains (pyLower file_type)

/-! ## AiHubClient.embedding
(`src/infrastructure/clients/aihub.py`, lines 49-71)

The external HTTP call is modelled by an environment
`attempts : Nat → PyResult α` giving the outcome of each attempt
(`post` + `raise_for_status` + `json()`).  The function returns the
result together with the list of back-off sleeps performed (in base
time units) and the number of attempts made. -/

/-- Message of the exception raised when every attempt failed
(the source interpolates `max_retries + 1` into the message). -/
def allFailedMsg : String := "All attempts failed."

/-- The `for attempt in range(max_retries + 1)` loop:
`remaining` counts loop iterations still allowed, `attempt` is the loop
variable.  A successful attempt returns immediately; a failed attempt
at `attempt == max_retries` breaks out and raises; otherwise the loop
sleeps `2 ** attempt` and continues. -/
def embedAux {α : Type} (attempts : Nat → PyResult α) (max_retries : Nat) :
    Nat → Nat → List Nat → PyResult α × List Nat × Nat
  | 0, attempt, sleeps => (PyResult.exn allFailedMsg, sleeps, attempt)
  | remaining + 1, attempt, sleeps =>
    match attempts attempt with
    | PyResult.ok v => (PyResult.ok v, sleeps, attempt + 1)
    | PyResult.exn _ =>
      if attempt = max_retries then (PyResult.exn allFailedMsg, sleeps, attempt + 1)
      else embedAux attempts max_retries remaining (attempt + 1) (sleeps ++ [2 ^ attempt])

/-- `AiHubClient.embedding` retry behaviour (the `inputs`/`model`
payload construction does not affect control flow and is elided; the
source default for `max_retries` is 3). -/
def embedding {α : Type} (attempts : Nat → PyResult α) (max_retries : Nat) :
    PyResult α × List Nat × Nat :=
  embedAux attempts max_retries (max_retries + 1) 0 []

/-! ## DocumentService.save_chunks_with_embeddings
(`src/applications/services/document.py`, lines 103-190)

The repository and AiHub collaborators are modelled by a `SaveEnv`;
the returned `SaveTrace` records which collaborator calls were made
(model lookup, embedding call, and the argument handed to
`create_chunks_bulk`, when that call was reached). -/

/-- One element of the `data` list of the AiHub embedding response
(`x.get("embedding", [])` and `x.get("index", 0)`); the numeric vector
payload is opaque to the control flow and is modelled with `Int`
entries. -/
structure EmbeddingItem where
  embedding : List Int
  index : Nat
deriving DecidableEq, Repr

/-- One row of the `chunks_data` list handed to
`chunk_repository.create_chunks_bulk` (document and datasource ids
modelled as `Nat`). -/
structure ChunkRow where
  document_id : Nat
  datasource_id : Nat
  content : List Char
  chunk_index : Nat
  embedding : List Int
deriving DecidableEq, Repr

/-- Outcomes of the collaborator calls made by
`save_chunks_with_embeddings`. -/
structure SaveEnv where
  /-- `document_repository.get_datasource_embedding_model(datasource_id)` -/
  embeddingModel : Option String
  /-- the `data` field of `aihub_client.embedding(...)`, or the exception it raises -/
  embedResponse : PyResult (List EmbeddingItem)
  /-- `chunk_repository.create_chunks_bulk(chunks_data)` -/
  bulkInsert : List ChunkRow → PyResult (List ChunkRow)

/-- Which collaborator calls `save_chunks_with_embeddings` performed. -/
structure SaveTrace where
  modelLookup : Bool
  embedCalled : Bool
  /-- `some rows` iff `create_chunks_bulk` was invoked, with its argument. -/
  insertArg : Option (List ChunkRow)
deriving DecidableEq, Repr

/-- Message of the `ValueError` raised on a missing embedding model
(the source interpolates the datasource id). -/
def missingModelMsg : String := "Datasource not found or has no embedding_model configured"

/-- Message of the `ValueError` raised on an embedding-count mismatch
(the source interpolates the two counts). -/
def countMismatchMsg : String := "Embedding count mismatch"

/-- Python `embeddings_data.sort(key=lambda x: x.get("index", 0))`:
a stable sort by reported index. -/
def sortByIndex (data : List EmbeddingItem) : List EmbeddingItem :=
  stableSort (fun a b => a.index ≤ b.index) data

/-- `DocumentService.save_chunks_with_embeddings`.  Empty chunk lists
return immediately; a missing embedding model raises; the embedding
call is made once, the returned count validated against the chunk
count, the vectors re-sorted by reported index, paired positionally
with the chunks, and bulk-inserted.  (The dimension check at lines
162-166 only logs a warning and is elided; the `except` wrapper at
lines 186-190 logs and re-raises, leaving the raised exception
unchanged.) -/
def save_chunks_with_embeddings (env : SaveEnv) (document_id datasource_id : Nat)
    (chunks : List ChunkResult) : PyResult (List ChunkRow) × SaveTrace :=
  if chunks.isEmpty then
    (PyResult.ok [], ⟨false, false, none⟩)
  else
    match env.embeddingModel with
    | none => (PyResult.exn missingModelMsg, ⟨true, false, none⟩)
    | some _ =>
      match env.embedResponse with
      | PyResult.exn e => (PyResult.exn e, ⟨true, true, none⟩)
      | PyResult.ok embeddings_data =>
        if embeddings_data.length ≠ chunks.length then
          (PyResult.exn countMismatchMsg, ⟨true, true, none⟩)
        else
          let sorted := sortByIndex embeddings_data
          let chunks_data := List.zipWith
            (fun (c : ChunkResult) (item : EmbeddingItem) =>
              ChunkRow.mk document_id datasource_id c.content c.chunk_index item.embedding)
            chunks sorted
          match env.bulkInsert chunks_data with
          | PyResult.exn e => (PyResult.exn e, ⟨true, true, some chunks_data⟩)
          | PyResult.ok saved => (PyResult.ok saved, ⟨true, true, some chunks_data⟩)

/-! ## DocumentController.create_document
(`src/applications/controllers/document.py`, lines 71-150)

The document metadata record and the outcomes of the content-phase
collaborator calls are supplied through `IngestDeps`; the model starts
after the filename-to-file-type derivation (the `file_type` tag is a
parameter).  The returned `Option ContentOutcome` reports what the
content phase did (`none` when metadata persistence itself raised, so
the phase never ran). -/

/-- The document metadata record persisted by
`document_service.create_document`. -/
structure Document where
  id : Nat
  datasource_id : Nat
  title : String
  file_type : String
deriving DecidableEq, Repr

/-- What happened inside the `try` block of the controller.  Every one
of these outcomes leads to the same return value: the already-persisted
metadata record.  `readFailed` / `processFailed` are absorbed by the
outer `except` (line 145), `saveFailed` by the inner `except`
(line 135), `noChunker` by the explicit `else` branch (line 140). -/
inductive ContentOutcome where
  | readFailed (e : String)
  | noChunker
  | processFailed (e : String)
  | saveFailed (e : String)
  | saved (rows : List ChunkRow)
deriving DecidableEq, Repr

/-- Collaborator outcomes for one ingest call. -/
structure IngestDeps where
  /-- `document_service.create_document(...)` (outside the `try` block) -/
  createDoc : PyResult Document
  /-- `file.read()` -/
  readFile : PyResult (List Char)
  /-- `chunker.process(file_content, filename)` -/
  processResult : PyResult (List ChunkResult)
  /-- environment of `save_chunks_with_embeddings` -/
  saveEnv : SaveEnv

/-- The content phase of the controller (the body of the `try` block,
lines 111-144): read the upload, look up a chunker for the file type,
chunk, and save chunks with embeddings, catching the save error
separately. -/
def contentPhase (deps : IngestDeps) (datasource_id : Nat) (doc : Document)
    (file_type : String) : ContentOutcome :=
  match deps.readFile with
  | PyResult.exn e => ContentOutcome.readFailed e
  | PyResult.ok _ =>
    if get_chunker_available file_type then
      match deps.processResult with
      | PyResult.exn e => ContentOutcome.processFailed e
      | PyResult.ok chunks =>
        match (save_chunks_with_embeddings deps.saveEnv doc.id datasource_id chunks).1 with
        | PyResult.exn e => ContentOutcome.saveFailed e
        | PyResult.ok rows => ContentOutcome.saved rows
    else ContentOutcome.noChunker

/-- `DocumentController.create_document`: persist metadata, then run
the content phase with every failure contained, and return the
persisted record. -/
def create_document (deps : IngestDeps) (datasource_id : Nat) (file_type : String) :
    PyResult Document × Option ContentOutcome :=
  match deps.createDoc with
  | PyResult.exn e => (PyResult.exn e, none)
  | PyResult.ok doc => (PyResult.ok doc, some (contentPhase deps datasource_id doc file_type))

/-! ## SearchService SQL construction
(`src/applications/services/search.py`)

The code builds its SQL by f-string interpolation of the pgvector
operator, the rendered embedding vector and the quoted datasource-id
list, and passes only the remaining values (`top_k`, `search_text`,
the weights) as bound parameters.  The functions below reproduce the
strings the code hands to
`document_repository.execute_raw_sql`. -/

/-- The single-quote character (used by the code to quote interpolated
datasource ids and the vector literal). -/
def sq : String := String.mk [Char.ofNat 39]

/-- `", ".join([f"'{str(ds_id)}'" for ds_id in datasource_ids])`. -/
def datasource_ids_str (ids : List String) : String :=
  String.intercalate ", " (ids.map (fun s => sq ++ s ++ sq))

/-- `"[" + ",".join(map(str, query_embedding)) + "]"` (vector entries
modelled as integers; only the rendered text matters here). -/
def embedding_str (v : List Int) : String :=
  "[" ++ String.intercalate "," (v.map toString) ++ "]"

/-- The `SimilarityMetric` enum of `src/applications/dtos/search.py`. -/
inductive SimilarityMetric where
  | cosine
  | l2
  | innerProduct
deriving DecidableEq, Repr

/-- The `operator_map` of the search service. -/
def operator_map : SimilarityMetric → String
  | SimilarityMetric.cosine => "<=>"
  | SimilarityMetric.l2 => "<->"
  | SimilarityMetric.innerProduct => "<#>"

/-- The f-string of `SearchService._semantic_search` (lines 99-114),
with the interpolated holes filled in. -/
def semantic_sql (operator idsStr embStr : String) : String :=
  "\n            SELECT \n                c.id as chunk_id,\n                c.document_id,\n                c.datasource_id,\n                c.content,\n                c.chunk_index,\n                d.title as document_title,\n                (1 - (c.embedding " ++ operator ++ " " ++ sq ++ embStr ++ sq
    ++ "::vector)) as score\n            FROM chunks_384dimensions c\n            JOIN documents d ON c.document_id = d.id\n            WHERE c.datasource_id IN (" ++ idsStr
    ++ ")\n                AND c.embedding IS NOT NULL\n            ORDER BY c.embedding "
    ++ operator ++ " " ++ sq ++ embStr ++ sq ++ "::vector\n            LIMIT :top_k\n        "

/-- The SQL string `_semantic_search` hands to `execute_raw_sql`, as a
function of the request data it interpolates. -/
def semantic_search_sql (metric : SimilarityMetric) (ids : List String) (emb : List Int) :
    String :=
  semantic_sql (operator_map metric) (datasource_ids_str ids) (embedding_str emb)

/-- The f-string of `SearchService._hybrid_search` (lines 207-242),
with the interpolated holes filled in. -/
def hybrid_sql (operator idsStr embStr : String) : String :=
  "\n            WITH text_search AS (\n                SELECT \n                    c.id,\n                    ts_rank(c.tcontent, query) as text_score\n                FROM chunks_384dimensions c,\n                plainto_tsquery('english', :search_text) query\n                WHERE c.datasource_id IN (" ++ idsStr
    ++ ")\n                    AND c.tcontent @@ query\n            ),\n            vector_search AS (\n                SELECT \n                    c.id,\n                    (1 - (c.embedding " ++ operator ++ " " ++ sq ++ embStr ++ sq
    ++ "::vector)) as vector_score\n                FROM chunks_384dimensions c\n                WHERE c.datasource_id IN (" ++ idsStr
    ++ ")\n                    AND c.embedding IS NOT NULL\n            )\n            SELECT \n                c.id as chunk_id,\n                c.document_id,\n                c.datasource_id,\n                c.content,\n                c.chunk_index,\n                d.title as document_title,\n                (COALESCE(ts.text_score, 0) * :text_weight + \n                 COALESCE(vs.vector_score, 0) * :vector_weight) as score\n            FROM chunks_384dimensions c\n            JOIN documents d ON c.document_id = d.id\n            LEFT JOIN text_search ts ON c.id = ts.id\n            LEFT JOIN vector_search vs ON c.id = vs.id\n            WHERE c.datasource_id IN (" ++ idsStr
    ++ ")\n                AND (ts.text_score IS NOT NULL OR vs.vector_score IS NOT NULL)\n            ORDER BY score DESC\n            LIMIT :top_k\n        "

/-- The SQL string `_hybrid_search` hands to `execute_raw_sql`, as a
function of the request data it interpolates. -/
def hybrid_search_sql (metric : SimilarityMetric) (ids : List String) (emb : List Int) :
    String :=
  hybrid_sql (operator_map metric) (datasource_ids_str ids) (embedding_str emb)

/-! ## Hybrid search semantics
(`src/applications/services/search.py`, lines 166-255)

Relational semantics of the hybrid SQL over an abstract table state:
`DBChunk` rows of `chunks_384dimensions` (with nullable `embedding`),
`DBDoc` rows of `documents`, and a `SearchEnv` giving the PostgreSQL
scoring primitives for the fixed query (`tcontent @@ query` match,
`ts_rank`, and `1 - (embedding <op> query_vector)`).  Scores are
rationals. -/

structure DBChunk where
  id : Nat
  document_id : Nat
  datasource_id : Nat
  content : String
  chunk_index : Nat
  embedding : Option (List Int)
deriving DecidableEq, Repr

structure DBDoc where
  id : Nat
  title : String
deriving DecidableEq, Repr

/-- The PostgreSQL scoring primitives for one fixed query. -/
structure SearchEnv where
  /-- `c.tcontent @@ plainto_tsquery(query)` -/
  textMatch : DBChunk → Bool
  /-- `ts_rank(c.tcontent, query)` -/
  textScore : DBChunk → ℚ
  /-- `1 - (embedding <op> query_vector)` for a stored vector -/
  vecScore : List Int → ℚ

/-- One row of the hybrid result set. -/
structure SearchRow where
  chunk_id : Nat
  document_id : Nat
  datasource_id : Nat
  content : String
  chunk_index : Nat
  document_title : String
  score : ℚ
deriving DecidableEq, Repr

/-- `text_search` CTE contribution for a chunk: `some text_score` iff
the chunk is in the datasource set and matches the text query. -/
def textSide (env : SearchEnv) (ids : List Nat) (c : DBChunk) : Option ℚ :=
  if c.datasource_id ∈ ids ∧ env.textMatch c then some (env.textScore c) else none

/-- `vector_search` CTE contribution for a chunk: `some vector_score`
iff the chunk is in the datasource set and its `embedding` is not
NULL. -/
def vectorSide (env : SearchEnv) (ids : List Nat) (c : DBChunk) : Option ℚ :=
  match c.embedding with
  | some e => if c.datasource_id ∈ ids then some (env.vecScore e) else none
  | none => none

/-- The rows of the final SELECT before ordering: datasource filter,
inner join with `documents`, left joins to the two CTEs, keep rows with
at least one side present, and score
`COALESCE(text, 0) * text_weight + COALESCE(vector, 0) * vector_weight`. -/
def hybridRows (env : SearchEnv) (chunks : List DBChunk) (docs : List DBDoc)
    (ids : List Nat) (text_weight vector_weight : ℚ) : List SearchRow :=
  chunks.filterMap (fun c =>
    if c.datasource_id ∈ ids then
      match docs.find? (fun d => d.id == c.document_id) with
      | some d =>
        let ts := textSide env ids c
        let vs := vectorSide env ids c
        if ts.isSome ∨ vs.isSome then
          some ⟨c.id, c.document_id, c.datasource_id, c.content, c.chunk_index, d.title,
            ts.getD 0 * text_weight + vs.getD 0 * vector_weight⟩
        else none
      | none => none
    else none)

/-- `ORDER BY score DESC LIMIT :top_k` (a stable descending sort
followed by truncation). -/
def hybrid_search (env : SearchEnv) (chunks : List DBChunk) (docs : List DBDoc)
    (ids : List Nat) (text_weight vector_weight : ℚ) (top_k : Nat) : List SearchRow :=
  (stableSort (fun a b => decide (b.score ≤ a.score))
    (hybridRows env chunks docs ids text_weight vector_weight)).take top_k

/-- The default weights of `_hybrid_search` (`text_weight=0.3`,
`vector_weight=0.7`). -/
def hybrid_search_default (env : SearchEnv) (chunks : List DBChunk) (docs : List DBDoc)
    (ids : List Nat) (top_k : Nat) : List SearchRow :=
  hybrid_search env chunks docs ids (3 / 10) (7 / 10) top_k

/-! ## Concrete environments used by witnesses and counterexamples -/

/-- A persisted document metadata record. -/
def docA : Document := ⟨1, 7, "t.docx", "word"⟩

/-- Ingest collaborators for the missing-embedding-model scenario:
metadata persisted, upload read, one chunk produced, datasource has no
configured embedding model. -/
def depsNoModel : IngestDeps :=
  { createDoc := PyResult.ok docA
    readFile := PyResult.ok "x".toList
    processResult := PyResult.ok [⟨"hi".toList, 0, 0, 2⟩]
    saveEnv :=
      { embeddingModel := none
        embedResponse := PyResult.ok []
        bulkInsert := fun _ => PyResult.ok [] } }

/-- Ingest collaborators where chunking produced zero chunks and the
datasource has no configured embedding model. -/
def depsZeroChunks : IngestDeps :=
  { createDoc := PyResult.ok docA
    readFile := PyResult.ok "x".toList
    processResult := PyResult.ok []
    saveEnv :=
      { embeddingModel := none
        embedResponse := PyResult.exn "service down"
        bulkInsert := fun _ => PyResult.exn "db down" } }

/-- Ingest collaborators where every content-phase step fails. -/
def depsAllFail : IngestDeps :=
  { createDoc := PyResult.ok docA
    readFile := PyResult.exn "read failed"
    processResult := PyResult.exn "boom"
    saveEnv :=
      { embeddingModel := none
        embedResponse := PyResult.exn "service down"
        bulkInsert := fun _ => PyResult.exn "db down" } }

end Datahub

namespace Datahub

/-! ## Helper lemmas -/

/-- A loop state whose `nextStart` is itself and still inside the text
never terminates, whatever the fuel. -/
theorem chunkLoop_fix (cs co : Nat) (text : List Char) (s : Int)
    (hs : s < (text.length : Int)) (hfix : nextStart cs co text s = s) :
    ∀ fuel chunk_index chunks, chunkLoop cs co text fuel s chunk_index chunks = none := by
  intro fuel
  induction fuel with
  | zero => intro i c; rfl
  | succ n ih =>
    intro i c
    simp only [chunkLoop, if_pos hs, hfix]
    exact ih _ _

/-- Unfolding the retry loop across `k` initial failures followed by a
success: starting at attempt `a` with `a + k ≤ max_retries`, the loop
performs the `k` failing attempts (sleeping `2 ^ attempt` after each),
then returns the success of attempt `a + k`. -/
theorem embedAux_ok {α : Type} (attempts : Nat → PyResult α) (max_retries : Nat) (resp : α) :
    ∀ (k a : Nat) (sleeps : List Nat), a + k ≤ max_retries →
      (∀ i, a ≤ i → i < a + k → ∃ e, attempts i = PyResult.exn e) →
      attempts (a + k) = PyResult.ok resp →
      embedAux attempts max_retries (max_retries + 1 - a) a sleeps
        = (PyResult.ok resp, sleeps ++ (List.range' a k).map (fun i => 2 ^ i), a + k + 1) := by
  intro k
  induction k with
  | zero =>
    intro a sleeps hle hfail hok
    obtain ⟨r, hr⟩ : ∃ r, max_retries + 1 - a = r + 1 := ⟨max_retries - a, by omega⟩
    rw [hr]
    simp only [embedAux]
    rw [Nat.add_zero] at hok
    rw [hok]
    simp
  | succ k ih =>
    intro a sleeps hle hfail hok
    obtain ⟨r, hr⟩ : ∃ r, max_retries + 1 - a = r + 1 := ⟨max_retries - a, by omega⟩
    rw [hr]
    simp only [embedAux]
    obtain ⟨e, he⟩ := hfail a (Nat.le_refl a) (by omega)
    rw [he]
    rw [if_neg (show ¬ a = max_retries by omega)]
    have hr2 : r = max_retries + 1 - (a + 1) := by omega
    rw [hr2]
    rw [ih (a + 1) (sleeps ++ [2 ^ a]) (by omega)
      (fun i h1 h2 => hfail i (by omega) (by omega))
      (by rw [show a + 1 + k = a + (k + 1) by omega]; exact hok)]
    rw [List.range'_succ]
    simp [List.append_assoc]
    omega

/-- Unfolding the retry loop when every attempt from `a` through
`max_retries` fails: the loop performs them all, sleeping after each
but the last, and raises. -/
theorem embedAux_all_fail {α : Type} (attempts : Nat → PyResult α) (max_retries : Nat) :
    ∀ (k a : Nat) (sleeps : List Nat), a + k = max_retries →
      (∀ i, a ≤ i → i ≤ max_retries → ∃ e, attempts i = PyResult.exn e) →
      embedAux attempts max_retries (max_retries + 1 - a) a sleeps
        = (PyResult.exn allFailedMsg, sleeps ++ (List.range' a k).map (fun i => 2 ^ i),
            max_retries + 1) := by
  intro k
  induction k with
  | zero =>
    intro a sleeps ha hfail
    obtain ⟨r, hr⟩ : ∃ r, max_retries + 1 - a = r + 1 := ⟨max_retries - a, by omega⟩
    rw [hr]
    simp only [embedAux]
    obtain ⟨e, he⟩ := hfail a (Nat.le_refl a) (by omega)
    rw [he]
    rw [if_pos (show a = max_retries by omega)]
    simp
    omega
  | succ k ih =>
    intro a sleeps ha hfail
    obtain ⟨r, hr⟩ : ∃ r, max_retries + 1 - a = r + 1 := ⟨max_retries - a, by omega⟩
    rw [hr]
    simp only [embedAux]
    obtain ⟨e, he⟩ := hfail a (Nat.le_refl a) (by omega)
    rw [he]
    rw [if_neg (show ¬ a = max_retries by omega)]
    have hr2 : r = max_retries + 1 - (a + 1) := by omega
    rw [hr2]
    rw [ih (a + 1) (sleeps ++ [2 ^ a]) (by omega)
      (fun i h1 h2 => hfail i (by omega) h2)]
    rw [List.range'_succ]
    simp [List.append_assoc]

/-- `stableInsert` inserts its element, up to permutation. -/
theorem stableInsert_perm {α : Type} (le : α → α → Bool) (x : α) (l : List α) :
    (stableInsert le x l).Perm (x :: l) := by
  induction l with
  | nil => exact List.Perm.refl _
  | cons y ys ih =>
    simp only [stableInsert]
    split
    · exact List.Perm.refl _
    · exact (ih.cons y).trans (List.Perm.swap x y ys)

/-- `stableSort` permutes its input. -/
theorem stableSort_perm {α : Type} (le : α → α → Bool) (l : List α) :
    (stableSort le l).Perm l := by
  induction l with
  | nil => exact List.Perm.refl _
  | cons x xs ih => exact (stableInsert_perm le x (stableSort le xs)).trans (ih.cons x)

/-- Inserting into a `le`-sorted list keeps it sorted (for a total and
transitive `le`). -/
theorem stableInsert_pairwise {α : Type} (le : α → α → Bool)
    (htrans : ∀ a b c, le a b = true → le b c = true → le a c = true)
    (htot : ∀ a b, le a b = true ∨ le b a = true) (x : α) (l : List α)
    (h : List.Pairwise (fun a b => le a b = true) l) :
    List.Pairwise (fun a b => le a b = true) (stableInsert le x l) := by
  induction l with
  | nil => simp [stableInsert]
  | cons y ys ih =>
    obtain ⟨hy, hys⟩ := List.pairwise_cons.mp h
    simp only [stableInsert]
    split
    · next hxy =>
      refine List.pairwise_cons.mpr ⟨?_, h⟩
      intro z hz
      rcases List.mem_cons.mp hz with rfl | hz2
      · exact hxy
      · exact htrans x y z hxy (hy z hz2)
    · next hxy =>
      have hyx : le y x = true := (htot x y).resolve_left hxy
      refine List.pairwise_cons.mpr ⟨?_, ih hys⟩
      intro z hz
      have hz2 : z ∈ x :: ys := (stableInsert_perm le x ys).subset hz
      rcases List.mem_cons.mp hz2 with rfl | hz3
      · exact hyx
      · exact hy z hz3

/-- `stableSort` sorts (for a total and transitive `le`). -/
theorem stableSort_pairwise {α : Type} (le : α → α → Bool)
    (htrans : ∀ a b c, le a b = true → le b c = true → le a c = true)
    (htot : ∀ a b, le a b = true ∨ le b a = true) (l : List α) :
    List.Pairwise (fun a b => le a b = true) (stableSort le l) := by
  induction l with
  | nil => exact List.Pairwise.nil
  | cons x xs ih => exact stableInsert_pairwise le htrans htot x _ ih

/-- When the reported indexes of the response are exactly
`0, …, n - 1`, the `i`-th element of the index-sorted response is the
element that reported index `i`. -/
theorem sortByIndex_index_eq (data : List EmbeddingItem)
    (hperm : (data.map (fun x => x.index)).Perm (List.range data.length)) :
    ∀ (i : Nat) (hi : i < (sortByIndex data).length),
      ((sortByIndex data).get ⟨i, hi⟩).index = i := by
  have hp : (sortByIndex data).Perm data := stableSort_perm _ data
  have hsorted : List.Pairwise
      (fun a b : EmbeddingItem => decide (a.index ≤ b.index) = true) (sortByIndex data) :=
    stableSort_pairwise _
      (fun a b c hab hbc => by
        simp only [decide_eq_true_eq] at hab hbc ⊢
        omega)
      (fun a b => by
        simp only [decide_eq_true_eq]
        omega)
      data
  have hmapsorted : List.Sorted (· ≤ ·) ((sortByIndex data).map (fun x => x.index)) := by
    rw [List.Sorted, List.pairwise_map]
    exact hsorted.imp (fun h => by simpa using h)
  have hmapperm : ((sortByIndex data).map (fun x => x.index)).Perm
      (List.range data.length) := (hp.map _).trans hperm
  have heq : (sortByIndex data).map (fun x => x.index) = List.range data.length :=
    List.eq_of_perm_of_sorted hmapperm hmapsorted (List.sorted_le_range data.length)
  intro i hi
  have hlen : i < data.length := by
    have := hp.length_eq
    omega
  have h1 : ((sortByIndex data).map (fun x => x.index))[i]? = some i := by
    rw [heq]
    simp [hlen]
  have h2 : ((sortByIndex data).map (fun x => x.index))[i]?
      = some (((sortByIndex data).get ⟨i, hi⟩).index) := by
    simp [List.getElem?_eq_getElem hi]
  rw [h1] at h2
  exact (Option.some_injective _ h2).symm

/-- `lastHit` returns `none` exactly when no scanned position
satisfies the condition. -/
theorem lastHit_none_iff (cond : Nat → Bool) :
    ∀ b, lastHit cond b = none ↔ ∀ i, i < b → cond i = false := by
  intro b
  induction b with
  | zero => simp [lastHit]
  | succ n ih =>
    simp only [lastHit]
    constructor
    · intro h i hi
      by_cases hc : cond n
      · rw [if_pos hc] at h
        cases h
      · rw [if_neg hc] at h
        rcases Nat.lt_succ_iff_lt_or_eq.mp hi with h2 | rfl
        · exact (ih.mp h) i h2
        · simpa using hc
    · intro h
      rw [if_neg (by simpa using h n (Nat.lt_succ_self n))]
      exact ih.mpr (fun i hi => h i (by omega))

/-- `lastHit` returns `some m` exactly when `m` is the greatest scanned
position satisfying the condition. -/
theorem lastHit_some_iff (cond : Nat → Bool) :
    ∀ b m, lastHit cond b = some m ↔
      (m < b ∧ cond m = true ∧ ∀ j, m < j → j < b → cond j = false) := by
  intro b
  induction b with
  | zero => intro m; simp [lastHit]
  | succ n ih =>
    intro m
    simp only [lastHit]
    by_cases hc : cond n
    · rw [if_pos hc]
      constructor
      · intro h
        obtain rfl : n = m := Option.some_injective _ h
        exact ⟨Nat.lt_succ_self n, hc, fun j hj1 hj2 => by omega⟩
      · rintro ⟨hm, hcm, hmax⟩
        have hmn : m = n := by
          by_contra hne
          have h2 := hmax n (by omega) (Nat.lt_succ_self n)
          rw [hc] at h2
          cases h2
        rw [hmn]
    · rw [if_neg hc]
      rw [ih m]
      constructor
      · rintro ⟨hm, hcm, hmax⟩
        refine ⟨by omega, hcm, fun j hj1 hj2 => ?_⟩
        rcases Nat.lt_succ_iff_lt_or_eq.mp hj2 with h2 | rfl
        · exact hmax j hj1 h2
        · simpa using hc
      · rintro ⟨hm, hcm, hmax⟩
        have hmn : m ≠ n := by
          intro h
          subst h
          exact hc hcm
        exact ⟨by omega, hcm, fun j hj1 hj2 => hmax j hj1 (by omega)⟩

/-- For in-range `Nat` bounds, `pyRfind` returns either `-1` with no
occurrence in range, or (the cast of) the greatest in-range occurrence
position. -/
theorem pyRfind_spec (text pat : List Char) (a b : Nat) (hpat : 0 < pat.length)
    (ha : a ≤ text.length) (hb : b ≤ text.length) :
    (pyRfind text pat ↑a ↑b = -1 ∧
      ∀ j, a ≤ j → j + pat.length ≤ b → patAt text pat j = false) ∨
    (∃ m : Nat, pyRfind text pat ↑a ↑b = ↑m ∧ a ≤ m ∧ m + pat.length ≤ b ∧
      patAt text pat m = true ∧
      ∀ j, m < j → j + pat.length ≤ b → patAt text pat j = false) := by
  have hnorm_a : pyNorm ↑a text.length = a := by
    unfold pyNorm
    rw [if_neg (by omega)]
    rw [Int.toNat_natCast]
    omega
  have hnorm_b : pyNorm ↑b text.length = b := by
    unfold pyNorm
    rw [if_neg (by omega)]
    rw [Int.toNat_natCast]
    omega
  unfold pyRfind
  rw [hnorm_a, hnorm_b]
  rcases hlh : lastHit (fun i => decide (a ≤ i) && decide (i + pat.length ≤ b)
      && patAt text pat i) b with _ | m
  · left
    refine ⟨rfl, fun j hja hjb => ?_⟩
    have hjlt : j < b := by omega
    have hcj := (lastHit_none_iff _ b).mp hlh j hjlt
    simpa [hja, hjb] using hcj
  · right
    obtain ⟨hmb, hcm, hmax⟩ := (lastHit_some_iff _ b m).mp hlh
    simp only [Bool.and_eq_true, decide_eq_true_eq] at hcm
    refine ⟨m, rfl, hcm.1.1, hcm.1.2, hcm.2, fun j hj1 hj2 => ?_⟩
    have hjlt : j < b := by omega
    have hcj := hmax j hj1 hjlt
    simpa [show a ≤ j by omega, hj2] using hcj

/-- `pyRfind` equals the greatest in-range occurrence position when one
is supplied. -/
theorem pyRfind_eq_of_max_hit (text pat : List Char) (a b m : Nat) (hpat : 0 < pat.length)
    (ha : a ≤ text.length) (hb : b ≤ text.length) (ham : a ≤ m)
    (hm : patAt text pat m = true) (hmb : m + pat.length ≤ b)
    (hmax : ∀ j, m < j → j + pat.length ≤ b → patAt text pat j = false) :
    pyRfind text pat ↑a ↑b = ↑m := by
  rcases pyRfind_spec text pat a b hpat ha hb with ⟨_, hnone⟩ | ⟨k, hk, hak, hkb, hpk, hkmax⟩
  · rw [hnone m ham hmb] at hm
    cases hm
  · have hkm : k = m := by
      rcases Nat.lt_trichotomy k m with h | h | h
      · rw [hkmax m h hmb] at hm
        cases hm
      · exact h
      · rw [hmax k h hkb] at hpk
        cases hpk
    rw [hk, hkm]

/-- `pyRfind` is at most `m` when no occurrence exists past `m` in
range. -/
theorem pyRfind_le_of_max (text pat : List Char) (a b m : Nat) (hpat : 0 < pat.length)
    (ha : a ≤ text.length) (hb : b ≤ text.length)
    (hmax : ∀ j, m < j → j + pat.length ≤ b → patAt text pat j = false) :
    pyRfind text pat ↑a ↑b ≤ ↑m := by
  rcases pyRfind_spec text pat a b hpat ha hb with ⟨hv, _⟩ | ⟨k, hk, hak, hkb, hpk, _⟩
  · rw [hv]
    omega
  · rw [hk]
    by_contra h
    have hkm : m < k := by omega
    rw [hmax k hkm hkb] at hpk
    cases hpk

/-- A (non-empty) pattern occurrence lies inside the string. -/
theorem patAt_bound (text pat : List Char) (i : Nat) (hpat : 0 < pat.length)
    (h : patAt text pat i = true) : i + pat.length ≤ text.length := by
  unfold patAt at h
  rw [beq_iff_eq] at h
  have hlen := congrArg List.length h
  simp only [List.length_take, List.length_drop] at hlen
  omega

/-! ## Claims -/

/-- C1: the claim asserts termination of `chunk_text` for all texts
whenever `0 ≤ chunk_overlap < chunk_size`, and illustrates it on
`chunk_size = 20`, `chunk_overlap = 5`, text
"The cat sat. The dog ran far away today.".  On that very input the
loop does not terminate: the first iteration cuts at the sentence
terminator (`cutEnd = 12`, first chunk "The cat sat.") and advances to
`start = 12 - 5 = 7` (the second chunk does start 5 characters before
the cut point, as claimed), but from `start = 7` every iteration again
cuts at index 11 and recomputes `start = 7`, appending the chunk
"sat." forever — `chunk_text` returns `none` for every fuel. -/
theorem C1_chunk_text_diverges_on_spec_example :
    (∀ fuel : Nat, chunk_text 20 5 fuel catText = none) ∧
    cutEnd 20 catText 0 = 12 ∧
    pyStrip (pySlice catText 0 12) = "The cat sat.".toList ∧
    nextStart 20 5 catText 0 = 7 ∧
    nextStart 20 5 catText 7 = 7 ∧
    pyStrip (pySlice catText 7 12) = "sat.".toList := by
  refine ⟨?_, by decide, by decide, by decide, by decide, by decide⟩
  intro fuel
  cases fuel with
  | zero => rfl
  | succ n =>
    have h0 : (0 : Int) < (catText.length : Int) := by decide
    have h7 : nextStart 20 5 catText 0 = 7 := by decide
    simp only [chunk_text, if_neg (show ¬(catText = []) by decide)]
    simp only [chunkLoop, if_pos h0, h7]
    exact chunkLoop_fix 20 5 catText 7 (by decide) (by decide) n _ _

/-- C2: once the document metadata record has been persisted, no
failure of the content phase (missing chunker, read/extraction/chunking
failure, embedding or persistence failure) makes the ingest call raise:
`create_document` still returns the persisted record. -/
theorem C2_ingest_returns_doc_after_metadata (deps : IngestDeps) (datasource_id : Nat)
    (file_type : String) (doc : Document) (h : deps.createDoc = PyResult.ok doc) :
    (create_document deps datasource_id file_type).1 = PyResult.ok doc := by
  simp only [create_document, h]

/-- Witness for C2 at a concrete input where every content-phase
collaborator fails. -/
theorem C2_ingest_returns_doc_after_metadata_witness :
    (create_document depsAllFail 7 "word").1 = PyResult.ok docA :=
  C2_ingest_returns_doc_after_metadata depsAllFail 7 "word" docA rfl

/-- C3 counterexample: with one chunk produced and no embedding model
configured, `save_chunks_with_embeddings` raises the missing-model
error, but the ingest call does not fail — the controller catches the
error and returns the persisted metadata record, so the error does not
propagate to the ingest caller as the claim states. -/
theorem C3_error_does_not_reach_ingest_caller :
    create_document depsNoModel 7 "word"
      = (PyResult.ok docA, some (ContentOutcome.saveFailed missingModelMsg)) ∧
    (save_chunks_with_embeddings depsNoModel.saveEnv docA.id 7 [⟨"hi".toList, 0, 0, 2⟩]).1
      = PyResult.exn missingModelMsg :=
  ⟨by decide, by decide⟩

/-- C3 (amended): with at least one chunk and no configured embedding
model, `save_chunks_with_embeddings` fails with the missing-model
configuration error; the error propagates only to its immediate caller
inside the ingest call, which catches and logs it, so the ingest call
still returns the already-persisted metadata record (no rollback). -/
theorem C3_missing_model_caught_inside_ingest (deps : IngestDeps) (datasource_id : Nat)
    (file_type : String) (doc : Document) (content : List Char) (chunks : List ChunkResult)
    (hdoc : deps.createDoc = PyResult.ok doc)
    (hread : deps.readFile = PyResult.ok content)
    (hch : get_chunker_available file_type = true)
    (hproc : deps.processResult = PyResult.ok chunks)
    (hne : chunks ≠ [])
    (hmodel : deps.saveEnv.embeddingModel = none) :
    (save_chunks_with_embeddings deps.saveEnv doc.id datasource_id chunks).1
      = PyResult.exn missingModelMsg ∧
    create_document deps datasource_id file_type
      = (PyResult.ok doc, some (ContentOutcome.saveFailed missingModelMsg)) := by
  obtain ⟨c, cs, rfl⟩ := List.exists_cons_of_ne_nil hne
  have hsave : save_chunks_with_embeddings deps.saveEnv doc.id datasource_id (c :: cs)
      = (PyResult.exn missingModelMsg, ⟨true, false, none⟩) := by
    simp only [save_chunks_with_embeddings, List.isEmpty_cons, Bool.false_eq_true, if_false,
      hmodel]
  refine ⟨by rw [hsave], ?_⟩
  simp only [create_document, hdoc, contentPhase, hread, if_pos hch, hproc, hsave]

/-- Witness for C3 (amended) at the concrete missing-model
environment. -/
theorem C3_missing_model_caught_inside_ingest_witness :
    (save_chunks_with_embeddings depsNoModel.saveEnv docA.id 7 [⟨"hi".toList, 0, 0, 2⟩]).1
      = PyResult.exn missingModelMsg ∧
    create_document depsNoModel 7 "word"
      = (PyResult.ok docA, some (ContentOutcome.saveFailed missingModelMsg)) :=
  C3_missing_model_caught_inside_ingest depsNoModel 7 "word" docA "x".toList
    [⟨"hi".toList, 0, 0, 2⟩] rfl rfl (by decide) rfl (by decide) rfl

/-- C10: calling `save_chunks_with_embeddings` with an empty chunk
list returns an empty list immediately — the datasource embedding
model is not resolved, the embedding service is not called and nothing
is handed to the bulk insert — so an ingest that produced zero chunks
never raises the missing-model error even when the datasource has no
model configured. -/
theorem C10_empty_chunks_short_circuit :
    (∀ (env : SaveEnv) (document_id datasource_id : Nat),
      save_chunks_with_embeddings env document_id datasource_id []
        = (PyResult.ok [], ⟨false, false, none⟩)) ∧
    (∀ (deps : IngestDeps) (datasource_id : Nat) (file_type : String) (doc : Document)
      (content : List Char),
      deps.createDoc = PyResult.ok doc → deps.readFile = PyResult.ok content →
      get_chunker_available file_type = true → deps.processResult = PyResult.ok [] →
      create_document deps datasource_id file_type
        = (PyResult.ok doc, some (ContentOutcome.saved []))) := by
  refine ⟨fun env d ds => rfl, ?_⟩
  intro deps ds ft doc content hdoc hread hch hproc
  simp only [create_document, hdoc, contentPhase, hread, if_pos hch, hproc,
    save_chunks_with_embeddings, List.isEmpty_nil, if_true]

/-- Witness for C10 at a datasource with no configured embedding
model. -/
theorem C10_empty_chunks_short_circuit_witness :
    save_chunks_with_embeddings depsZeroChunks.saveEnv 1 7 []
      = (PyResult.ok [], ⟨false, false, none⟩) ∧
    create_document depsZeroChunks 7 "word"
      = (PyResult.ok docA, some (ContentOutcome.saved [])) :=
  ⟨C10_empty_chunks_short_circuit.1 depsZeroChunks.saveEnv 1 7,
    C10_empty_chunks_short_circuit.2 depsZeroChunks 7 "word" docA "x".toList rfl rfl
      (by decide) rfl⟩

set_option maxRecDepth 100000 in
/-- C4: the claim asserts that datasource ids and the query embedding
reach the persistence layer only as bound parameters, the SQL string
being identical across runs that differ only in those values.  The
code instead interpolates both into the query text: changing a
datasource id, or one embedding coordinate, changes the SQL string
handed to `execute_raw_sql`, for both the semantic and the hybrid
query. -/
theorem C4_sql_interpolates_request_data :
    semantic_search_sql SimilarityMetric.cosine
        ["11111111-1111-1111-1111-111111111111"] [1, 2]
      ≠ semantic_search_sql SimilarityMetric.cosine
        ["22222222-2222-2222-2222-222222222222"] [1, 2] ∧
    semantic_search_sql SimilarityMetric.cosine
        ["11111111-1111-1111-1111-111111111111"] [1, 2]
      ≠ semantic_search_sql SimilarityMetric.cosine
        ["11111111-1111-1111-1111-111111111111"] [1, 3] ∧
    hybrid_search_sql SimilarityMetric.cosine
        ["11111111-1111-1111-1111-111111111111"] [1, 2]
      ≠ hybrid_search_sql SimilarityMetric.cosine
        ["22222222-2222-2222-2222-222222222222"] [1, 2] ∧
    hybrid_search_sql SimilarityMetric.cosine
        ["11111111-1111-1111-1111-111111111111"] [1, 2]
      ≠ hybrid_search_sql SimilarityMetric.cosine
        ["11111111-1111-1111-1111-111111111111"] [1, 3] := by
  refine ⟨?_, ?_, ?_, ?_⟩ <;> decide

/-- C5: with retry budget `max_retries`, if the external call fails on
the first `k` attempts (`k ≤ max_retries`) and succeeds on attempt
`k + 1`, `embedding` returns that success after exactly `k + 1`
attempts, having slept `2 ^ attempt` base units between consecutive
attempts; if every attempt fails, it makes exactly `max_retries + 1`
attempts and raises the all-attempts-failed
(`EmbeddingUnavailableError`) exception. -/
theorem C5_retry_backoff {α : Type} (attempts : Nat → PyResult α) (max_retries : Nat) :
    (∀ (k : Nat) (resp : α), k ≤ max_retries →
      (∀ i, i < k → ∃ e, attempts i = PyResult.exn e) →
      attempts k = PyResult.ok resp →
      embedding attempts max_retries
        = (PyResult.ok resp, (List.range k).map (fun i => 2 ^ i), k + 1)) ∧
    ((∀ i, i ≤ max_retries → ∃ e, attempts i = PyResult.exn e) →
      embedding attempts max_retries
        = (PyResult.exn allFailedMsg, (List.range max_retries).map (fun i => 2 ^ i),
            max_retries + 1)) := by
  constructor
  · intro k resp hk hfail hok
    have h := embedAux_ok attempts max_retries resp k 0 [] (by omega)
      (fun i _ h2 => hfail i (by omega)) (by simpa using hok)
    simpa [embedding, List.range_eq_range'] using h
  · intro hfail
    have h := embedAux_all_fail attempts max_retries max_retries 0 []
      (by omega) (fun i _ h2 => hfail i h2)
    simpa [embedding, List.range_eq_range'] using h

/-- The mock of the specification: fails the first two attempts, then
succeeds. -/
def attemptsFailTwice : Nat → PyResult Nat :=
  fun i => if i < 2 then PyResult.exn "boom" else PyResult.ok 42

/-- The mock of the specification: always fails. -/
def attemptsAlwaysFail : Nat → PyResult Nat := fun _ => PyResult.exn "boom"

/-- Witness for C5 with the default budget `max_retries = 3`: two
failures then a success yield the value after 3 attempts with sleeps
`[1, 2]`; persistent failure raises after 4 attempts with sleeps
`[1, 2, 4]`. -/
theorem C5_retry_backoff_witness :
    embedding attemptsFailTwice 3 = (PyResult.ok 42, [1, 2], 3) ∧
    embedding attemptsAlwaysFail 3 = (PyResult.exn allFailedMsg, [1, 2, 4], 4) :=
  ⟨(C5_retry_backoff attemptsFailTwice 3).1 2 42 (by omega)
      (fun i hi => ⟨"boom", by simp only [attemptsFailTwice, if_pos hi]⟩) rfl,
    (C5_retry_backoff attemptsAlwaysFail 3).2 (fun i _ => ⟨"boom", rfl⟩)⟩

/-- C6: when saving chunks with embeddings, a response whose vector
count differs from the chunk count fails with the count-mismatch error
and the bulk insert is never reached; when the counts match (and the
response reports each index `0, …, n-1` once), the vectors are
re-sorted by reported index before being paired positionally, so the
bulk insert receives, at position `i`, the chunk at position `i` paired
with the vector that reported index `i`. -/
theorem C6_count_validation_and_index_pairing (env : SaveEnv)
    (document_id datasource_id : Nat) (chunks : List ChunkResult)
    (data : List EmbeddingItem) (model : String)
    (hmodel : env.embeddingModel = some model)
    (hresp : env.embedResponse = PyResult.ok data)
    (hne : chunks ≠ []) :
    (data.length ≠ chunks.length →
      save_chunks_with_embeddings env document_id datasource_id chunks
        = (PyResult.exn countMismatchMsg, ⟨true, true, none⟩)) ∧
    (data.length = chunks.length →
      (data.map (fun x => x.index)).Perm (List.range chunks.length) →
      ∃ rows,
        (save_chunks_with_embeddings env document_id datasource_id chunks).2.insertArg
          = some rows ∧
        rows.length = chunks.length ∧
        ∀ (i : Nat) (hi : i < chunks.length),
          ∃ item ∈ data, item.index = i ∧
            rows[i]? = some (ChunkRow.mk document_id datasource_id
              (chunks.get ⟨i, hi⟩).content (chunks.get ⟨i, hi⟩).chunk_index
              item.embedding)) := by
  obtain ⟨c, cs, rfl⟩ := List.exists_cons_of_ne_nil hne
  constructor
  · intro hmis
    simp only [save_chunks_with_embeddings, List.isEmpty_cons, Bool.false_eq_true,
      if_false, hmodel, hresp, if_pos hmis]
  · intro hlen hperm
    have hperm2 : (data.map (fun x => x.index)).Perm (List.range data.length) := by
      rw [hlen]
      exact hperm
    have hsortlen : (sortByIndex data).length = data.length :=
      (stableSort_perm _ data).length_eq
    have hzlen : (List.zipWith
        (fun (c : ChunkResult) (item : EmbeddingItem) =>
          ChunkRow.mk document_id datasource_id c.content c.chunk_index item.embedding)
        (c :: cs) (sortByIndex data)).length = (c :: cs).length := by
      rw [List.length_zipWith]
      simp only [List.length_cons] at hlen ⊢
      omega
    refine ⟨_, ?_, hzlen, ?_⟩
    · simp only [save_chunks_with_embeddings, List.isEmpty_cons, Bool.false_eq_true,
        if_false, hmodel, hresp, if_neg (show ¬ data.length ≠ (c :: cs).length by omega),
        sortByIndex]
      cases env.bulkInsert (List.zipWith
        (fun (c : ChunkResult) (item : EmbeddingItem) =>
          ChunkRow.mk document_id datasource_id c.content c.chunk_index item.embedding)
        (c :: cs) (stableSort (fun a b => a.index ≤ b.index) data)) <;> rfl
    · intro i hi
      have hi2 : i < (sortByIndex data).length := by omega
      refine ⟨(sortByIndex data).get ⟨i, hi2⟩,
        (stableSort_perm _ data).subset (List.get_mem (sortByIndex data) _ _),
        sortByIndex_index_eq data hperm2 i hi2, ?_⟩
      have hzi : i < (List.zipWith
          (fun (c : ChunkResult) (item : EmbeddingItem) =>
            ChunkRow.mk document_id datasource_id c.content c.chunk_index item.embedding)
          (c :: cs) (sortByIndex data)).length := by omega
      rw [List.getElem?_eq_getElem hzi]
      simp [List.getElem_zipWith, List.get_eq_getElem]

/-- The two chunks of the C6 witness. -/
def chunksTwo : List ChunkResult := [⟨"a".toList, 0, 0, 1⟩, ⟨"b".toList, 1, 1, 2⟩]

/-- An embedding response delivered out of order (index 1 first). -/
def dataSwapped : List EmbeddingItem := [⟨[10], 1⟩, ⟨[20], 0⟩]

/-- Save environment with the out-of-order two-vector response. -/
def envSwapped : SaveEnv :=
  ⟨some "all-MiniLM-L6-v2", PyResult.ok dataSwapped, fun rows => PyResult.ok rows⟩

/-- Save environment returning one vector for two chunks. -/
def envShort : SaveEnv :=
  ⟨some "all-MiniLM-L6-v2", PyResult.ok [⟨[10], 0⟩], fun rows => PyResult.ok rows⟩

/-- Witness for C6: one vector for two chunks hits the count-mismatch
error with no insert; a two-vector response arriving out of order is
re-sorted so chunk `i` is paired with the vector reporting index `i`. -/
theorem C6_count_validation_and_index_pairing_witness :
    save_chunks_with_embeddings envShort 1 7 chunksTwo
      = (PyResult.exn countMismatchMsg, ⟨true, true, none⟩) ∧
    (∃ rows,
      (save_chunks_with_embeddings envSwapped 1 7 chunksTwo).2.insertArg = some rows ∧
      rows.length = chunksTwo.length ∧
      ∀ (i : Nat) (hi : i < chunksTwo.length),
        ∃ item ∈ dataSwapped, item.index = i ∧
          rows[i]? = some (ChunkRow.mk 1 7 (chunksTwo.get ⟨i, hi⟩).content
            (chunksTwo.get ⟨i, hi⟩).chunk_index item.embedding)) :=
  ⟨(C6_count_validation_and_index_pairing envShort 1 7 chunksTwo [⟨[10], 0⟩]
      "all-MiniLM-L6-v2" rfl rfl (by decide)).1 (by decide),
    (C6_count_validation_and_index_pairing envSwapped 1 7 chunksTwo dataSwapped
      "all-MiniLM-L6-v2" rfl rfl (by decide)).2 (by decide) (by decide)⟩

/-- C9 counterexample: the single-space text is non-empty and shorter
than `chunk_size = 2`, yet `chunk_text` returns zero chunks (the
stripped slice is empty and is skipped), not the one chunk the claim
demands for every non-empty short text. -/
theorem C9_whitespace_short_text_yields_no_chunk :
    chunk_text 2 0 2 [' '] = some [] ∧ ([' '] : List Char) ≠ [] ∧
    ([' '] : List Char).length < 2 :=
  ⟨by decide, by decide, by decide⟩

/-- C9 (amended): `chunk_text` on the empty string returns zero
chunks, and on every non-empty text shorter than `chunk_size` whose
whitespace-trimmed content is non-empty it returns exactly one chunk
holding the full trimmed text (a short text that trims to nothing
yields zero chunks instead). -/
theorem C9_short_text_single_chunk (chunk_size chunk_overlap fuel : Nat) (text : List Char)
    (hfuel : 2 ≤ fuel) (hne : text ≠ []) (hlen : text.length < chunk_size)
    (hstrip : pyStrip text ≠ []) :
    chunk_text chunk_size chunk_overlap fuel [] = some [] ∧
    chunk_text chunk_size chunk_overlap fuel text
      = some [⟨pyStrip text, 0, 0, (chunk_size : Int)⟩] := by
  refine ⟨rfl, ?_⟩
  obtain ⟨n, rfl⟩ : ∃ n, fuel = n + 2 := ⟨fuel - 2, by omega⟩
  have hlen0 : 0 < text.length := List.length_pos.mpr hne
  have hnotin : ¬ ((0 : Int) + (chunk_size : Int) < (text.length : Int)) := by
    omega
  have hE : cutEnd chunk_size text 0 = (chunk_size : Int) := by
    unfold cutEnd
    rw [if_neg hnotin]
    omega
  have hslice : pySlice text 0 (chunk_size : Int) = text := by
    unfold pySlice pyNorm
    rw [if_neg (by omega : ¬ ((chunk_size : Int) < 0)),
      if_neg (by omega : ¬ ((0 : Int) < 0))]
    have h1 : min ((chunk_size : Int)).toNat text.length = text.length := by
      simp only [Int.toNat_natCast]
      omega
    have h2 : min ((0 : Int)).toNat text.length = 0 := by
      simp only [Int.toNat_zero]
      omega
    rw [h1, h2, List.drop_zero, List.take_length]
  have hnext : nextStart chunk_size chunk_overlap text 0 = (chunk_size : Int) := by
    simp only [nextStart, hE]
    split_ifs <;> omega
  unfold chunk_text
  rw [if_neg hne]
  simp only [chunkLoop]
  rw [if_pos (by omega : (0 : Int) < (text.length : Int))]
  rw [hE, hslice, hnext, if_pos hstrip, if_pos hstrip]
  rw [if_neg (by omega : ¬ ((chunk_size : Int) < (text.length : Int)))]
  rw [List.nil_append]

/-- C8: for a window `[start, start + chunk_size)` that does not reach
end-of-text, the cut follows sentence break > word break > hard cut:
if a sentence terminator followed by a space occurs strictly past
`start` inside the window, the cut is one past the last such
terminator; otherwise, if a plain space occurs strictly past `start`
inside the window, the cut is at the last such space; otherwise the cut
is the hard cut `start + chunk_size`. -/
theorem C8_boundary_preference_order (cs : Nat) (text : List Char) (start : Nat)
    (hwin : start + cs < text.length) :
    (∀ (m : Nat), start < m → sentAt text m → m + 2 ≤ start + cs →
      (∀ j, j < text.length → start < j → sentAt text j → j + 2 ≤ start + cs → j ≤ m) →
      cutEnd cs text ↑start = (m : Int) + 1) ∧
    ((∀ j, j < text.length → start < j → sentAt text j → ¬ (j + 2 ≤ start + cs)) →
      ∀ (m : Nat), start < m → spaceAt text m → m + 1 ≤ start + cs →
      (∀ j, j < text.length → start < j → spaceAt text j → j + 1 ≤ start + cs → j ≤ m) →
      cutEnd cs text ↑start = (m : Int)) ∧
    ((∀ j, j < text.length → start < j → sentAt text j → ¬ (j + 2 ≤ start + cs)) →
      (∀ j, j < text.length → start < j → spaceAt text j → ¬ (j + 1 ≤ start + cs)) →
      cutEnd cs text ↑start = (start : Int) + cs) := by
  have ha : start ≤ text.length := by omega
  have hb : start + cs ≤ text.length := by omega
  have hcast : ((start : Int) + (cs : Int)) = ((start + cs : Nat) : Int) := by push_cast; ring
  have hlt : ((start + cs : Nat) : Int) < (text.length : Int) := by exact_mod_cast hwin
  refine ⟨?_, ?_, ?_⟩
  · -- sentence-break case
    intro m hsm hsent hmb hmax
    have hmaxpat : ∀ (p : List Char), p = ['.', ' '] ∨ p = ['!', ' '] ∨ p = ['?', ' '] →
        ∀ j, m < j → j + p.length ≤ start + cs → patAt text p j = false := by
      intro p hp j hj1 hj2
      by_contra hcon
      have hptrue : patAt text p j = true := by
        cases hpt : patAt text p j
        · exact absurd hpt hcon
        · rfl
      have hplen : p.length = 2 := by rcases hp with rfl | rfl | rfl <;> rfl
      have hjlen : j + 2 ≤ text.length := by
        have := patAt_bound text p j (by omega) hptrue
        omega
      have hsentj : sentAt text j := by
        rcases hp with rfl | rfl | rfl
        · exact Or.inl hptrue
        · exact Or.inr (Or.inl hptrue)
        · exact Or.inr (Or.inr hptrue)
      have := hmax j (by omega) (by omega) hsentj (by omega)
      omega
    have hle1 : pyRfind text ['.', ' '] ↑start ↑(start + cs) ≤ ↑m :=
      pyRfind_le_of_max text _ start (start + cs) m (by decide) ha hb
        (hmaxpat _ (Or.inl rfl))
    have hle2 : pyRfind text ['!', ' '] ↑start ↑(start + cs) ≤ ↑m :=
      pyRfind_le_of_max text _ start (start + cs) m (by decide) ha hb
        (hmaxpat _ (Or.inr (Or.inl rfl)))
    have hle3 : pyRfind text ['?', ' '] ↑start ↑(start + cs) ≤ ↑m :=
      pyRfind_le_of_max text _ start (start + cs) m (by decide) ha hb
        (hmaxpat _ (Or.inr (Or.inr rfl)))
    have hmaxeq : max (max (pyRfind text ['.', ' '] ↑start ↑(start + cs))
        (pyRfind text ['!', ' '] ↑start ↑(start + cs)))
        (pyRfind text ['?', ' '] ↑start ↑(start + cs)) = ↑m := by
      rcases hsent with hp | hp | hp
      · have he : pyRfind text ['.', ' '] ↑start ↑(start + cs) = ↑m :=
          pyRfind_eq_of_max_hit text _ start (start + cs) m (by decide) ha hb (by omega)
            hp hmb (hmaxpat _ (Or.inl rfl))
        rw [he, max_eq_left hle2, max_eq_left hle3]
      · have he : pyRfind text ['!', ' '] ↑start ↑(start + cs) = ↑m :=
          pyRfind_eq_of_max_hit text _ start (start + cs) m (by decide) ha hb (by omega)
            hp hmb (hmaxpat _ (Or.inr (Or.inl rfl)))
        rw [he, max_eq_right hle1, max_eq_left hle3]
      · have he : pyRfind text ['?', ' '] ↑start ↑(start + cs) = ↑m :=
          pyRfind_eq_of_max_hit text _ start (start + cs) m (by decide) ha hb (by omega)
            hp hmb (hmaxpat _ (Or.inr (Or.inr rfl)))
        rw [he]
        exact max_eq_right (max_le hle1 hle2)
    simp only [cutEnd]
    rw [hcast, if_pos hlt, hmaxeq,
      if_pos (show (start : Int) < (m : Int) by exact_mod_cast hsm)]
  · -- word-break case
    intro hnosent m hsm hsp hmb hmax
    have hnopat : ∀ (p : List Char), p = ['.', ' '] ∨ p = ['!', ' '] ∨ p = ['?', ' '] →
        ∀ j, start < j → j + p.length ≤ start + cs → patAt text p j = false := by
      intro p hp j hj1 hj2
      by_contra hcon
      have hptrue : patAt text p j = true := by
        cases hpt : patAt text p j
        · exact absurd hpt hcon
        · rfl
      have hplen : p.length = 2 := by rcases hp with rfl | rfl | rfl <;> rfl
      have hjlen : j + 2 ≤ text.length := by
        have := patAt_bound text p j (by omega) hptrue
        omega
      have hsentj : sentAt text j := by
        rcases hp with rfl | rfl | rfl
        · exact Or.inl hptrue
        · exact Or.inr (Or.inl hptrue)
        · exact Or.inr (Or.inr hptrue)
      exact hnosent j (by omega) hj1 hsentj (by omega)
    have hle1 : pyRfind text ['.', ' '] ↑start ↑(start + cs) ≤ ↑start :=
      pyRfind_le_of_max text _ start (start + cs) start (by decide) ha hb
        (hnopat _ (Or.inl rfl))
    have hle2 : pyRfind text ['!', ' '] ↑start ↑(start + cs) ≤ ↑start :=
      pyRfind_le_of_max text _ start (start + cs) start (by decide) ha hb
        (hnopat _ (Or.inr (Or.inl rfl)))
    have hle3 : pyRfind text ['?', ' '] ↑start ↑(start + cs) ≤ ↑start :=
      pyRfind_le_of_max text _ start (start + cs) start (by decide) ha hb
        (hnopat _ (Or.inr (Or.inr rfl)))
    have hspace : pyRfind text [' '] ↑start ↑(start + cs) = ↑m := by
      refine pyRfind_eq_of_max_hit text _ start (start + cs) m (by decide) ha hb (by omega)
        hsp hmb ?_
      intro j hj1 hj2
      have hj2n : j + 1 ≤ start + cs := hj2
      by_contra hcon
      have hptrue : patAt text [' '] j = true := by
        cases hpt : patAt text [' '] j
        · exact absurd hpt hcon
        · rfl
      have hjlen : j + 1 ≤ text.length := patAt_bound text _ j (by decide) hptrue
      have := hmax j (by omega) (by omega) hptrue (by omega)
      omega
    simp only [cutEnd]
    rw [hcast, if_pos hlt,
      if_neg (show ¬ ((start : Int) < max (max (pyRfind text ['.', ' '] ↑start ↑(start + cs))
        (pyRfind text ['!', ' '] ↑start ↑(start + cs)))
        (pyRfind text ['?', ' '] ↑start ↑(start + cs))) by
          simp only [not_lt, max_le_iff]
          exact ⟨⟨hle1, hle2⟩, hle3⟩),
      hspace, if_pos (show (start : Int) < (m : Int) by exact_mod_cast hsm)]
  · -- hard-cut case
    intro hnosent hnospace
    have hnopat : ∀ (p : List Char), p = ['.', ' '] ∨ p = ['!', ' '] ∨ p = ['?', ' '] →
        ∀ j, start < j → j + p.length ≤ start + cs → patAt text p j = false := by
      intro p hp j hj1 hj2
      by_contra hcon
      have hptrue : patAt text p j = true := by
        cases hpt : patAt text p j
        · exact absurd hpt hcon
        · rfl
      have hplen : p.length = 2 := by rcases hp with rfl | rfl | rfl <;> rfl
      have hjlen : j + 2 ≤ text.length := by
        have := patAt_bound text p j (by omega) hptrue
        omega
      have hsentj : sentAt text j := by
        rcases hp with rfl | rfl | rfl
        · exact Or.inl hptrue
        · exact Or.inr (Or.inl hptrue)
        · exact Or.inr (Or.inr hptrue)
      exact hnosent j (by omega) hj1 hsentj (by omega)
    have hle1 : pyRfind text ['.', ' '] ↑start ↑(start + cs) ≤ ↑start :=
      pyRfind_le_of_max text _ start (start + cs) start (by decide) ha hb
        (hnopat _ (Or.inl rfl))
    have hle2 : pyRfind text ['!', ' '] ↑start ↑(start + cs) ≤ ↑start :=
      pyRfind_le_of_max text _ start (start + cs) start (by decide) ha hb
        (hnopat _ (Or.inr (Or.inl rfl)))
    have hle3 : pyRfind text ['?', ' '] ↑start ↑(start + cs) ≤ ↑start :=
      pyRfind_le_of_max text _ start (start + cs) start (by decide) ha hb
        (hnopat _ (Or.inr (Or.inr rfl)))
    have hlesp : pyRfind text [' '] ↑start ↑(start + cs) ≤ ↑start := by
      refine pyRfind_le_of_max text _ start (start + cs) start (by decide) ha hb ?_
      intro j hj1 hj2
      have hj2n : j + 1 ≤ start + cs := hj2
      by_contra hcon
      have hptrue : patAt text [' '] j = true := by
        cases hpt : patAt text [' '] j
        · exact absurd hpt hcon
        · rfl
      have hjlen : j + 1 ≤ text.length := patAt_bound text _ j (by decide) hptrue
      exact hnospace j (by omega) hj1 hptrue (by omega)
    simp only [cutEnd]
    rw [hcast, if_pos hlt,
      if_neg (show ¬ ((start : Int) < max (max (pyRfind text ['.', ' '] ↑start ↑(start + cs))
        (pyRfind text ['!', ' '] ↑start ↑(start + cs)))
        (pyRfind text ['?', ' '] ↑start ↑(start + cs))) by
          simp only [not_lt, max_le_iff]
          exact ⟨⟨hle1, hle2⟩, hle3⟩),
      if_neg (not_lt.mpr hlesp)]

/-- Witness for C8: a sentence-break cut on the specification example
(last '. ' past the start at index 11, cut at 12), a word-break cut
(spaces only, last in-window space at 19), and a hard cut (no space at
all, cut at `start + chunk_size = 20`). -/
theorem C8_boundary_preference_order_witness :
    cutEnd 20 catText 0 = 12 ∧
    cutEnd 20 "abcd efgh ijkl mnop qrst".toList 0 = 19 ∧
    cutEnd 20 "abcdefghijklmnopqrstuvwxyz".toList 0 = 20 :=
  ⟨(C8_boundary_preference_order 20 catText 0 (by decide)).1 11 (by decide) (by decide)
      (by decide) (by decide),
    (C8_boundary_preference_order 20 "abcd efgh ijkl mnop qrst".toList 0 (by decide)).2.1
      (by decide) 19 (by decide) (by decide) (by decide) (by decide),
    (C8_boundary_preference_order 20 "abcdefghijklmnopqrstuvwxyz".toList 0 (by decide)).2.2
      (by decide) (by decide)⟩

/-- Witness for C9 (amended) on the two-character text "ab" with
`chunk_size = 5`. -/
theorem C9_short_text_single_chunk_witness :
    chunk_text 5 1 2 [] = some [] ∧
    chunk_text 5 1 2 "ab".toList = some [⟨pyStrip "ab".toList, 0, 0, (5 : Int)⟩] :=
  C9_short_text_single_chunk 5 1 2 "ab".toList (by omega) (by decide) (by decide) (by decide)

/-- C7: every row returned by the hybrid search belongs to a chunk of
the datasource restriction that matched at least one side, and scores
`text_weight * text_score + vector_weight * vector_score` with the
default weights 0.3 and 0.7, the missing side contributing 0; the
result is ordered by combined score descending with at most `top_k`
entries. -/
theorem C7_hybrid_score_fusion (env : SearchEnv) (chunks : List DBChunk)
    (docs : List DBDoc) (ids : List Nat) (top_k : Nat) :
    (∀ r ∈ hybrid_search_default env chunks docs ids top_k,
      ∃ c ∈ chunks, c.datasource_id ∈ ids ∧ r.chunk_id = c.id ∧
        (env.textMatch c = true ∨ c.embedding ≠ none) ∧
        r.score = (if env.textMatch c then env.textScore c else 0) * (3 / 10)
          + ((c.embedding.map env.vecScore).getD 0) * (7 / 10)) ∧
    List.Pairwise (fun a b : SearchRow => b.score ≤ a.score)
      (hybrid_search_default env chunks docs ids top_k) ∧
    (hybrid_search_default env chunks docs ids top_k).length ≤ top_k := by
  refine ⟨?_, ?_, ?_⟩
  · intro r hr
    simp only [hybrid_search_default, hybrid_search] at hr
    have hr3 : r ∈ hybridRows env chunks docs ids (3 / 10) (7 / 10) :=
      (stableSort_perm _ _).subset (List.mem_of_mem_take hr)
    rw [hybridRows] at hr3
    obtain ⟨c, hc, hfc⟩ := List.mem_filterMap.mp hr3
    dsimp only at hfc
    by_cases hds : c.datasource_id ∈ ids
    · rw [if_pos hds] at hfc
      cases hfind : docs.find? (fun d => d.id == c.document_id) with
      | none =>
        rw [hfind] at hfc
        dsimp only at hfc
        cases hfc
      | some d =>
        rw [hfind] at hfc
        dsimp only at hfc
        by_cases hside : (textSide env ids c).isSome ∨ (vectorSide env ids c).isSome
        · rw [if_pos hside] at hfc
          have hrow := Option.some_injective _ hfc
          subst hrow
          refine ⟨c, hc, hds, rfl, ?_, ?_⟩
          · rcases hside with hts | hvs
            · left
              by_contra htm
              have hnone : textSide env ids c = none := by
                unfold textSide
                rw [if_neg (fun h => htm h.2)]
              rw [hnone] at hts
              cases hts
            · right
              intro hemb
              have hnone : vectorSide env ids c = none := by
                unfold vectorSide
                rw [hemb]
              rw [hnone] at hvs
              cases hvs
          · show (textSide env ids c).getD 0 * (3 / 10)
                + (vectorSide env ids c).getD 0 * (7 / 10) = _
            have ht : (textSide env ids c).getD 0
                = if env.textMatch c then env.textScore c else 0 := by
              unfold textSide
              by_cases hm : env.textMatch c
              · rw [if_pos ⟨hds, hm⟩, if_pos hm]
                rfl
              · rw [if_neg (fun h => hm h.2), if_neg hm]
                rfl
            have hv : (vectorSide env ids c).getD 0
                = (c.embedding.map env.vecScore).getD 0 := by
              rcases hemb : c.embedding with _ | e
              · simp [vectorSide, hemb]
              · simp [vectorSide, hemb, hds]
            rw [ht, hv]
        · rw [if_neg hside] at hfc
          cases hfc
    · rw [if_neg hds] at hfc
      cases hfc
  · have hp := stableSort_pairwise (fun a b : SearchRow => decide (b.score ≤ a.score))
      (fun a b c hab hbc => by
        simp only [decide_eq_true_eq] at hab hbc ⊢
        exact le_trans hbc hab)
      (fun a b => by
        simp only [decide_eq_true_eq]
        exact le_total b.score a.score)
      (hybridRows env chunks docs ids (3 / 10) (7 / 10))
    have hp2 : List.Pairwise (fun a b : SearchRow => b.score ≤ a.score)
        (stableSort (fun a b => decide (b.score ≤ a.score))
          (hybridRows env chunks docs ids (3 / 10) (7 / 10))) :=
      hp.imp (fun h => by simpa using h)
    simp only [hybrid_search_default, hybrid_search]
    exact List.Pairwise.sublist (List.take_sublist _ _) hp2
  · simp only [hybrid_search_default, hybrid_search]
    exact List.length_take_le _ _

/-- The scoring environment of the C7 witness: chunk 1 matches the
text query, every stored vector scores 1/4. -/
def envHybrid : SearchEnv := ⟨fun c => c.id == 1, fun _ => 1 / 2, fun _ => 1 / 4⟩

/-- Two chunks: one matches only full-text (no stored vector), the
other only the vector side. -/
def chunksHybrid : List DBChunk :=
  [⟨1, 10, 5, "alpha", 0, none⟩, ⟨2, 10, 5, "beta", 1, some [3]⟩]

/-- The single document row joined by the hybrid query. -/
def docsHybrid : List DBDoc := [⟨10, "doc"⟩]

/-- Witness for C7: the vector-only chunk scores
`0 * 0.3 + (1/4) * 0.7 = 7/40`, appears in the result, the result is
sorted descending, and at most 2 rows return. -/
theorem C7_hybrid_score_fusion_witness :
    (∃ c ∈ chunksHybrid, c.datasource_id ∈ [5] ∧
      (⟨2, 10, 5, "beta", 1, "doc", 7 / 40⟩ : SearchRow).chunk_id = c.id ∧
      (envHybrid.textMatch c = true ∨ c.embedding ≠ none) ∧
      (⟨2, 10, 5, "beta", 1, "doc", 7 / 40⟩ : SearchRow).score
        = (if envHybrid.textMatch c then envHybrid.textScore c else 0) * (3 / 10)
          + ((c.embedding.map envHybrid.vecScore).getD 0) * (7 / 10)) ∧
    List.Pairwise (fun a b : SearchRow => b.score ≤ a.score)
      (hybrid_search_default envHybrid chunksHybrid docsHybrid [5] 2) ∧
    (hybrid_search_default envHybrid chunksHybrid docsHybrid [5] 2).length ≤ 2 :=
  ⟨(C7_hybrid_score_fusion envHybrid chunksHybrid docsHybrid [5] 2).1
      ⟨2, 10, 5, "beta", 1, "doc", 7 / 40⟩ (by
        norm_num [hybrid_search_default, hybrid_search, hybridRows, textSide, vectorSide,
          stableSort, stableInsert, envHybrid, chunksHybrid, docsHybrid]),
    (C7_hybrid_score_fusion envHybrid chunksHybrid docsHybrid [5] 2).2.1,
    (C7_hybrid_score_fusion envHybrid chunksHybrid docsHybrid [5] 2).2.2⟩

end Datahub
